import Mathlib

/-!
Verification development for the SuperAudit Hardhat plugin
(static security analysis of Solidity contracts).

The definitions below are a shallow embedding of the plugin's source:

* `Severity`, `Issue`, `ReportSummary`, reporter operations and
  `getSummary` embed `packages/plugin/src/reporter.ts` and the
  severity/issue shape from the plugin's type declarations.
* `issueToSarifResult` / `outputSARIFResults` embed the `outputSARIF`
  result construction in `packages/plugin/src/tasks/analyze.ts`.
* `AIEnhancedRule` operations embed the AI enhancement wrapper
  (`AIEnhancedRule.apply`, `enhanceIssues`, `enhanceIssueWithAI`).
* The rule engine, the Solidity parser, the built-in detector set and
  the playbook parser / DSL compiler are referenced by the code in the
  repository but their defining modules are not part of the source
  tree available here; where a claim depends on them, the definitions
  are modelled from the specification and say so in their doc comment.

JavaScript `number` fields that only ever hold integral values in the
verified claims (lines, columns, risk scores, confidence percentages)
are modelled as `Nat`.
-/

namespace SuperAudit

/-- Severity vocabulary of the plugin: exactly three levels
(`"error" | "warning" | "info"` in `types.ts`). -/
inductive Severity where
  | error
  | warning
  | info
deriving DecidableEq, Repr

/-- Snapshot of the analysis context stored on an issue by the AI
enhancement wrapper and looked up again by `enhanceIssues`
(the fields of the context record that enhancement reads). -/
structure EnhanceContext where
  sourceCode : String
  filePath : String
deriving DecidableEq, Repr

/-- Enrichment payload attached by `enhanceIssueWithAI`
(`aiEnhancement` on an issue). -/
structure AIEnhancement where
  explanation : String
  suggestedFix : Option String
  riskScore : Option Nat
  confidence : Nat
deriving DecidableEq, Repr

/-- One finding, as in `types.ts` / `reporter.ts`.  The two trailing
fields model the ad hoc dynamic properties `_needsAIEnhancement` and
`_aiContext` that `AIEnhancedRule.apply` attaches to an existing issue
object; a JavaScript object without the property behaves as the
defaults `false` / `none`. -/
structure Issue where
  ruleId : String
  severity : Severity
  file : String
  line : Nat
  column : Nat
  message : String
  aiEnhancement : Option AIEnhancement := none
  needsAIEnhancement : Bool := false
  aiContext : Option EnhanceContext := none
deriving DecidableEq, Repr

/-! ## Reporter (`packages/plugin/src/reporter.ts`) -/

/-- State of a `Reporter`: its private `issues` array. -/
abbrev ReporterState := List Issue

/-- `Reporter.addIssue`: push one issue. -/
def addIssue (s : ReporterState) (i : Issue) : ReporterState :=
  s ++ [i]

/-- `Reporter.addIssues`: push many issues. -/
def addIssues (s : ReporterState) (l : List Issue) : ReporterState :=
  s ++ l

/-- `Reporter.clear`: reset the issue array. -/
def clear (_ : ReporterState) : ReporterState :=
  []

/-- Summary record returned by `Reporter.getSummary`. -/
structure ReportSummary where
  totalIssues : Nat
  errorCount : Nat
  warningCount : Nat
  infoCount : Nat
deriving DecidableEq, Repr

/-- `Reporter.getSummary`: start from `totalIssues = issues.length` and
zero counters, then bump one counter per issue according to its
severity (the `switch` in the source). -/
def getSummary (s : ReporterState) : ReportSummary :=
  s.foldl
    (fun acc i =>
      match i.severity with
      | .error => { acc with errorCount := acc.errorCount + 1 }
      | .warning => { acc with warningCount := acc.warningCount + 1 }
      | .info => { acc with infoCount := acc.infoCount + 1 })
    { totalIssues := s.length, errorCount := 0, warningCount := 0, infoCount := 0 }

/-- Reporter states reachable from a fresh `new Reporter()` by any
sequence of `addIssue`, `addIssues` and `clear` calls. -/
inductive ReachableReporter : ReporterState → Prop where
  | fresh : ReachableReporter []
  | addIssue {s} (i : Issue) : ReachableReporter s → ReachableReporter (addIssue s i)
  | addIssues {s} (l : List Issue) : ReachableReporter s → ReachableReporter (addIssues s l)
  | clear {s} : ReachableReporter s → ReachableReporter (clear s)

/-- Number of stored issues with the given severity. -/
def severityCount (s : ReporterState) (sev : Severity) : Nat :=
  (s.filter (fun i => i.severity = sev)).length

/-! ## SARIF output (`outputSARIF` in `packages/plugin/src/tasks/analyze.ts`) -/

/-- One entry of `runs[0].results` in the SARIF document. -/
structure SarifResult where
  ruleId : String
  messageText : String
  level : String
  uri : String
  startLine : Nat
  startColumn : Nat
deriving DecidableEq, Repr

/-- The result object built for one issue by `outputSARIF`:
`level` is `"error"` when the severity is `error` and `"warning"`
otherwise, and the location copies file/line/column. -/
def issueToSarifResult (i : Issue) : SarifResult :=
  { ruleId := i.ruleId
    messageText := i.message
    level := if i.severity = .error then "error" else "warning"
    uri := i.file
    startLine := i.line
    startColumn := i.column }

/-- `issues.map(issue => ({...}))` inside `outputSARIF`. -/
def outputSARIFResults (issues : List Issue) : List SarifResult :=
  issues.map issueToSarifResult

/-- A concrete reporter state reached by `addIssue`, `clear`,
`addIssue`, `addIssues`. -/
def demoReporterState : ReporterState :=
  addIssues
    (addIssue
      (clear (addIssue [] { ruleId := "no-tx-origin", severity := .warning,
                            file := "A.sol", line := 3, column := 1,
                            message := "tx.origin used" }))
      { ruleId := "reentrancy-paths", severity := .error,
        file := "Vault.sol", line := 10, column := 5,
        message := "reentrancy path" })
    [ { ruleId := "no-tx-origin", severity := .warning,
        file := "Vault.sol", line := 12, column := 3, message := "tx.origin used" },
      { ruleId := "dead-code", severity := .info,
        file := "Vault.sol", line := 20, column := 3, message := "unreachable" } ]

/-! ## Rules and analysis contexts (`types.ts`)

A rule's `apply(ast, context)` appends findings to `context.issues`;
`run` below gives the appended findings, so the mutation of the
context is `ctx.issues := ctx.issues ++ r.run ctx`. -/

/-- Per-file analysis context (the fields used by the code verified
here: source text, file path and the mutable findings sink). -/
structure AnalysisContext where
  sourceCode : String
  filePath : String
  issues : List Issue
deriving DecidableEq, Repr

/-- A detector rule: identity plus the findings its `apply` emits into
a given context. -/
structure Rule where
  id : String
  description : String
  severity : Severity
  run : AnalysisContext → List Issue

/-- `rule.apply(ast, context)` for a base rule: push the emitted
findings onto the context's sink. -/
def Rule.applyTo (r : Rule) (ctx : AnalysisContext) : AnalysisContext :=
  { ctx with issues := ctx.issues ++ r.run ctx }

/-! ## AI enhancement wrapper (`rules/ai-enhanced-rule.ts`) -/

/-- Response of `llmClient.analyzeCode`.  `confidence` is stored as a
percentage; `riskScore` of `0` and `confidence` of `0` are falsy in
the JavaScript formatting checks. -/
structure LLMAnalysisResponse where
  explanation : String
  suggestedFix : Option String
  riskScore : Option Nat
  additionalContext : Option String
  confidence : Nat
deriving DecidableEq, Repr

/-- `AIEnhancedRule.formatEnhancedMessage`: append the AI analysis
sections to the original message.  The `riskScore` and `confidence`
sections are skipped when the value is absent or `0` (JavaScript
truthiness). -/
def formatEnhancedMessage (orig : String) (r : LLMAnalysisResponse) : String :=
  let e1 := orig ++ "\n\n🤖 AI ANALYSIS:\n" ++ r.explanation
  let e2 := match r.suggestedFix with
    | some f => e1 ++ "\n\n🔧 SUGGESTED FIX:\n" ++ f
    | none => e1
  let e3 := match r.additionalContext with
    | some c => e2 ++ "\n\n📚 ADDITIONAL CONTEXT:\n" ++ c
    | none => e2
  let e4 := match r.riskScore with
    | some n => if n = 0 then e3 else e3 ++ "\n\n⚠️ RISK SCORE: " ++ toString n ++ "/10"
    | none => e3
  if r.confidence = 0 then e4
  else e4 ++ "\n🎯 CONFIDENCE: " ++ toString r.confidence ++ "%"

/-- An LLM oracle standing for `llmClient.analyzeCode` together with
the request construction (code-snippet extraction and the
solidity-parser based context fields), which live behind the external
LLM collaborator boundary; `none` models a thrown error. -/
abbrev LLMOracle := Issue → EnhanceContext → Option LLMAnalysisResponse

/-- `AIEnhancedRule.enhanceIssueWithAI`: on success build a new issue
record (object spread) with the augmented message and the
`aiEnhancement` payload; any failure is caught and the original issue
returned. -/
def enhanceIssueWithAI (llm : LLMOracle) (issue : Issue) (ctx : EnhanceContext) : Issue :=
  match llm issue ctx with
  | some resp =>
      { issue with
        message := formatEnhancedMessage issue.message resp
        aiEnhancement := some
          { explanation := resp.explanation
            suggestedFix := resp.suggestedFix
            riskScore := resp.riskScore
            confidence := resp.confidence } }
  | none => issue

namespace AIEnhancedRule

/-- `AIEnhancedRule.apply`: run the base rule, then mark every issue in
the context whose `ruleId` matches the base rule by setting the
dynamic `_needsAIEnhancement` flag and storing the context reference
on the existing issue object. -/
def apply (base : Rule) (enableAI : Bool) (ctx : AnalysisContext) : AnalysisContext :=
  let ctx1 := base.applyTo ctx
  if !enableAI then ctx1
  else
    { ctx1 with
      issues := ctx1.issues.map fun iss =>
        if iss.ruleId == base.id then
          { iss with
            needsAIEnhancement := true
            aiContext := some ⟨ctx1.sourceCode, ctx1.filePath⟩ }
        else iss }

/-- Context lookup in `enhanceIssues`:
`contexts.get(issue) || (issue as any)._aiContext`.  The map keyed by
object identity is modelled as a function on the issue value. -/
def resolveContext (contexts : Issue → Option EnhanceContext) (issue : Issue) :
    Option EnhanceContext :=
  (contexts issue).orElse fun _ => issue.aiContext

/-- Per-issue step of the `enhanceIssues` loop. -/
def enhanceOne (llm : LLMOracle) (contexts : Issue → Option EnhanceContext)
    (issue : Issue) : Issue :=
  if issue.needsAIEnhancement then
    match resolveContext contexts issue with
    | some ctx => enhanceIssueWithAI llm issue ctx
    | none => issue
  else issue

/-- `AIEnhancedRule.enhanceIssues`: one output pushed per input issue,
in order. -/
def enhanceIssues (llm : LLMOracle) (contexts : Issue → Option EnhanceContext)
    (issues : List Issue) : List Issue :=
  issues.map (enhanceOne llm contexts)

end AIEnhancedRule

/-- C4, as stated by the spec: after the base rule creates its
findings, no core operation changes any stored finding — the context
after `AIEnhancedRule.apply` holds exactly the pre-existing issues
followed by the issues as the base rule created them. -/
def findingsNeverMutatedAfterCreation : Prop :=
  ∀ (base : Rule) (ctx : AnalysisContext),
    (AIEnhancedRule.apply base true ctx).issues = ctx.issues ++ base.run ctx

/-- A base rule emitting one finding, used to exhibit the in-place
mutation performed by `AIEnhancedRule.apply`. -/
def demoBaseRule : Rule :=
  { id := "no-tx-origin"
    description := "Avoid tx.origin for authorization"
    severity := .warning
    run := fun ctx =>
      [ { ruleId := "no-tx-origin", severity := .warning, file := ctx.filePath,
          line := 7, column := 9, message := "tx.origin used" } ] }

/-- An empty per-file context for `demoBaseRule`. -/
def demoContext : AnalysisContext :=
  { sourceCode := "contract C (source text)", filePath := "C.sol", issues := [] }

/-! ## Analysis engine

`rules/engine.ts` (`RuleEngine`) is referenced by `tasks/analyze.ts`
but its module is not part of the source tree available here, so the
engine is modelled from the specification (§4.6): rules are applied in
registration order to each file, per-file findings are concatenated
across files, and the aggregate is sorted by (file, line, column) with
a stable sort so that ties keep registration order.  The sort key is
the comparator of `Reporter.printReport` (reporter.ts, in source),
with `localeCompare` on file paths modelled as the canonical order on
strings. -/

/-- One parsed source file (the fields the engine model needs). -/
structure SourceUnit where
  path : String
  sourceCode : String
deriving DecidableEq, Repr

/-- Fresh per-file context handed to each rule. -/
def mkContext (u : SourceUnit) : AnalysisContext :=
  { sourceCode := u.sourceCode, filePath := u.path, issues := [] }

/-- Findings one rule emits on one file. -/
def ruleFindings (r : Rule) (u : SourceUnit) : List Issue :=
  r.run (mkContext u)

/-- Modelled from the spec: apply every active rule to one file in
registration order, collecting into a per-file list. -/
def analyzeFile (rules : List Rule) (u : SourceUnit) : List Issue :=
  rules.flatMap fun r => ruleFindings r u

/-- Modelled from the spec: concatenate per-file lists across files. -/
def aggregateFindings (rules : List Rule) (units : List SourceUnit) : List Issue :=
  units.flatMap fun u => analyzeFile rules u

/-- The (file, line, column) comparator of `Reporter.printReport` as a
boolean `≤` test. -/
def issueLE (a b : Issue) : Bool :=
  if a.file = b.file then
    if a.line = b.line then decide (a.column ≤ b.column)
    else decide (a.line < b.line)
  else decide (a.file < b.file)

/-- Stable sort of the findings by (file, line, column). -/
def sortFindings (l : List Issue) : List Issue :=
  l.mergeSort issueLE

/-- Modelled from the spec: the deterministically ordered finding
collection of an analysis run. -/
def engineFindings (rules : List Rule) (units : List SourceUnit) : List Issue :=
  sortFindings (aggregateFindings rules units)

/-- Registration index of the rule with the given id. -/
def ruleIdx (rules : List Rule) (rid : String) : Nat :=
  rules.findIdx fun r => r.id == rid

/-- Two findings agree on file, line and column. -/
def sameKey (a b : Issue) : Prop :=
  a.file = b.file ∧ a.line = b.line ∧ a.column = b.column

/-! ## Failure isolation (spec §4.6 / §7, `RuleExecutionError`)

Modelled from the spec, since `rules/engine.ts` is not in the source
tree: a rule whose `apply` throws is caught per rule per file, logged
as a rule failure identifying the rule id and the file, and
contributes no findings. -/

/-- A rule whose execution can throw. -/
structure FallibleRule where
  id : String
  severity : Severity
  runE : AnalysisContext → Except String (List Issue)

/-- Log entry for a caught rule-level exception. -/
structure RuleFailure where
  ruleId : String
  file : String
  message : String
deriving DecidableEq, Repr

/-- Modelled from the spec: run one rule on one file inside the
per-rule failure boundary. -/
def runRuleIsolated (r : FallibleRule) (u : SourceUnit) : List Issue × List RuleFailure :=
  match r.runE (mkContext u) with
  | .ok issues => (issues, [])
  | .error e => ([], [{ ruleId := r.id, file := u.path, message := e }])

/-- Modelled from the spec: findings and failure log of one file. -/
def analyzeFileIsolated (rules : List FallibleRule) (u : SourceUnit) :
    List Issue × List RuleFailure :=
  (rules.flatMap fun r => (runRuleIsolated r u).1,
   rules.flatMap fun r => (runRuleIsolated r u).2)

/-- Modelled from the spec: findings and failure log of a whole run. -/
def analyzeMultipleIsolated (rules : List FallibleRule) (units : List SourceUnit) :
    List Issue × List RuleFailure :=
  (units.flatMap fun u => (analyzeFileIsolated rules u).1,
   units.flatMap fun u => (analyzeFileIsolated rules u).2)

/-! ## The analyze task (`tasks/analyze.ts`) -/

/-- Outcome of `parseAllSourceFiles`: a parsed unit list, a thrown
`ParseError`, or any other thrown error (`analyzeTask` distinguishes
the two kinds in its `catch`). -/
inductive ParseOutcome where
  | parsed (units : List SourceUnit)
  | parseFailure (msg : String)
  | readFailure (msg : String)
deriving DecidableEq, Repr

/-- Input of one `analyzeTask` run: the outcome of
`determineAnalysisRules` (which throws, e.g., on a missing playbook
file) and the outcome of parsing. -/
structure TaskInput where
  rulesOutcome : Except String (List Rule)
  parseOutcome : ParseOutcome

/-- Observable result of the task: a completed run with its finding
list, or an abort (`process.exit(1)` with an error message). -/
inductive RunResult where
  | completed (issues : List Issue)
  | aborted (message : String)

/-- Control flow of `analyzeTask`: a rule-determination error reaches
the outer `catch` and aborts; a `ParseError` aborts with the parse
diagnostic; any other parse-stage error aborts with a generic message;
otherwise the run completes with the engine's findings. -/
def analyzeRun (inp : TaskInput) : RunResult :=
  match inp.rulesOutcome with
  | .error e => .aborted ("Analysis failed: " ++ e)
  | .ok rules =>
    match inp.parseOutcome with
    | .parseFailure msg => .aborted ("Parse error: " ++ msg)
    | .readFailure msg => .aborted ("Failed to parse source files: " ++ msg)
    | .parsed units => .completed (engineFindings rules units)

/-- C5, as stated by the spec: a `ParseError` is the only error class
that halts processing — every run either completes with a finding
list or its parse step failed with a `ParseError`. -/
def parseErrorOnlyFatal : Prop :=
  ∀ inp : TaskInput,
    (∃ issues, analyzeRun inp = .completed issues)
    ∨ (∃ msg, inp.parseOutcome = .parseFailure msg)

/-- A source unit used in concrete runs. -/
def demoUnit : SourceUnit :=
  { path := "Token.sol", sourceCode := "contract Token (source text)" }

/-- A task input whose sources parse but whose rule determination
throws (`--playbook` pointing at a missing file), which `analyzeTask`
turns into an abort. -/
def demoAbortInput : TaskInput :=
  { rulesOutcome := .error "Playbook file not found: ./missing-playbook.yaml"
    parseOutcome := .parsed [demoUnit] }

/-! ## Playbook parsing and compilation

`playbooks/parser.ts` (`PlaybookParser`) and the DSL interpreter are
referenced by `playbooks/registry.ts` but are not part of the source
tree available here; they are modelled from the specification (§4.4,
§4.5, §7): validation is exhaustive over all check entries, a
malformed entry yields one per-entry validation error and is skipped,
and compilation maps each valid check to a rule through a closed,
enumerable predicate vocabulary. -/

/-- One raw check entry of the YAML document; `none` marks a missing
field. -/
structure RawCheck where
  id : Option String
  severity : Option String
  pattern : Option String
  message : Option String
deriving DecidableEq, Repr

/-- Severity strings accepted by the schema. -/
def parseSeverity : String → Option Severity
  | "error" => some .error
  | "warning" => some .warning
  | "info" => some .info
  | _ => none

/-- A validated static check of a playbook. -/
structure StaticCheckSpec where
  id : String
  severity : Severity
  pattern : String
  message : String
deriving DecidableEq, Repr

/-- Modelled from the spec: schema validation of one check entry;
each malformed entry produces exactly one validation error. -/
def validateCheck (c : RawCheck) : Except String StaticCheckSpec :=
  match c.id with
  | none => .error "check entry missing required id"
  | some i =>
    match c.severity with
    | none => .error ("check " ++ i ++ " missing required severity")
    | some sevStr =>
      match parseSeverity sevStr with
      | none => .error ("check " ++ i ++ " has invalid severity " ++ sevStr)
      | some sev =>
        match c.pattern with
        | none => .error ("check " ++ i ++ " missing required pattern")
        | some p =>
          .ok { id := i, severity := sev, pattern := p, message := c.message.getD "" }

/-- Parsed playbook: the ordered list of valid checks. -/
structure PlaybookSpec where
  checks : List StaticCheckSpec
deriving DecidableEq, Repr

/-- Modelled from the spec: exhaustive (not fail-fast) validation of a
document — all valid checks are kept, and one error is reported per
malformed entry. -/
def parsePlaybook (doc : List RawCheck) : PlaybookSpec × List String :=
  (⟨doc.filterMap fun c => (validateCheck c).toOption⟩,
   doc.flatMap fun c =>
     match validateCheck c with
     | .ok _ => []
     | .error e => [e])

/-- Modelled from the spec: the closed, enumerable predicate
vocabulary of the rule compiler (tagged variants, not a general
expression evaluator). -/
inductive PredTag where
  | callToTxOrigin
  | externalCallWithValue
  | missingRequireBeforeBalanceWrite
  | unguardedExternalCallThenWrite
deriving DecidableEq, Repr

/-- Modelled from the spec: the compiler only recognizes predicate
names it implements. -/
def recognizePredicate : String → Option PredTag
  | "call-to-tx-origin" => some .callToTxOrigin
  | "external-call-with-value" => some .externalCallWithValue
  | "missing-require-before-balance-write" => some .missingRequireBeforeBalanceWrite
  | "unguarded-external-call-then-write" => some .unguardedExternalCallThenWrite
  | _ => none

/-- A compiled playbook rule: identity plus a tag of the closed
vocabulary that selects its (compiled-in) behavior. -/
structure CompiledRule where
  id : String
  severity : Severity
  message : String
  tag : PredTag
deriving DecidableEq, Repr

/-- Modelled from the spec: compile one check, rejecting an
unrecognized predicate name with a compile-time error for that one
check. -/
def compileCheck (c : StaticCheckSpec) : Except String CompiledRule :=
  match recognizePredicate c.pattern with
  | none => .error ("unrecognized predicate " ++ c.pattern ++ " in check " ++ c.id)
  | some t => .ok { id := c.id, severity := c.severity, message := c.message, tag := t }

/-- Modelled from the spec: `compile(PlaybookSpec) -> (Rule[],
CompileError[])`, exhaustive over the checks. -/
def compilePlaybook (spec : PlaybookSpec) : List CompiledRule × List String :=
  (spec.checks.filterMap fun c => (compileCheck c).toOption,
   spec.checks.flatMap fun c =>
     match compileCheck c with
     | .ok _ => []
     | .error e => [e])

/-! ## The built-in reentrancy rule

The built-in detector set (`rules/index.ts`) is referenced by
`tasks/analyze.ts` but is not part of the source tree available here;
the reentrancy rule is modelled from the specification (§4.2, §4.3,
§8): an external call always terminates its basic block, and a call is
flagged when a write to a balance-like mapping is reachable after it
with no reentrancy-guard toggle on the path.  For the straight-line
function bodies the claim quantifies over, path order is statement
order. -/

/-- Statement kinds relevant to the reentrancy rule, each carrying its
source location. -/
inductive Stmt where
  | externalCall (line column : Nat)
  | balanceWrite (line column : Nat)
  | guardToggle (line column : Nat)
  | other (line column : Nat)
deriving DecidableEq, Repr

/-- Statement-kind tests. -/
def isExternalCall : Stmt → Bool
  | .externalCall _ _ => true
  | _ => false

def isBalanceWrite : Stmt → Bool
  | .balanceWrite _ _ => true
  | _ => false

def isGuardToggle : Stmt → Bool
  | .guardToggle _ _ => true
  | _ => false

/-- Modelled from the spec: is a balance-like write reachable from
here with no intervening reentrancy-guard toggle? -/
def unguardedWriteAfter : List Stmt → Bool
  | [] => false
  | s :: rest => isBalanceWrite s || (!isGuardToggle s && unguardedWriteAfter rest)

/-- The finding the reentrancy rule emits at an offending call. -/
def reentrancyFinding (file : String) (l c : Nat) : Issue :=
  { ruleId := "reentrancy-paths"
    severity := .error
    file := file
    line := l
    column := c
    message := "write to balance mapping reachable after external call without reentrancy guard" }

/-- Modelled from the spec: scan a function body, emitting one
error-severity finding at each external call from which an unguarded
balance write is reachable. -/
def reentrancyScan (file : String) : List Stmt → List Issue
  | [] => []
  | s :: rest =>
    (match s with
     | .externalCall l c =>
        if unguardedWriteAfter rest then [reentrancyFinding file l c] else []
     | _ => []) ++ reentrancyScan file rest

/-- No external call among the statements. -/
def callFree (L : List Stmt) : Prop :=
  ∀ s ∈ L, isExternalCall s = false

/-- No reentrancy-guard toggle among the statements. -/
def guardFree (L : List Stmt) : Prop :=
  ∀ s ∈ L, isGuardToggle s = false

/-- No balance-like write among the statements. -/
def writeFree (L : List Stmt) : Prop :=
  ∀ s ∈ L, isBalanceWrite s = false

/-! ## Concrete inputs for witnesses and counterexamples -/

/-- A rule whose execution always throws. -/
def demoFaultyRule : FallibleRule :=
  { id := "always-throws"
    severity := .error
    runE := fun _ => .error "rule crashed" }

/-- A well-behaved rule emitting one finding per file. -/
def demoOkRule : FallibleRule :=
  { id := "no-tx-origin"
    severity := .warning
    runE := fun ctx =>
      .ok [ { ruleId := "no-tx-origin", severity := .warning, file := ctx.filePath,
              line := 4, column := 3, message := "tx.origin used" } ] }

/-- A well-formed playbook check entry. -/
def demoGoodCheck1 : RawCheck :=
  { id := some "no-origin", severity := some "warning",
    pattern := some "call-to-tx-origin", message := some "avoid tx.origin" }

/-- Another well-formed playbook check entry (no message). -/
def demoGoodCheck2 : RawCheck :=
  { id := some "cei", severity := some "error",
    pattern := some "unguarded-external-call-then-write", message := none }

/-- A malformed playbook check entry: the required severity field is
missing. -/
def demoBadCheck : RawCheck :=
  { id := some "missing-sev", severity := none,
    pattern := some "call-to-tx-origin", message := some "m" }

/-- A validated check whose predicate name is outside the compiler's
vocabulary. -/
def demoUnknownCheck : StaticCheckSpec :=
  { id := "custom", severity := .error,
    pattern := "emit-raw-javascript", message := "m" }

/-- A validated check with a recognized predicate name. -/
def demoKnownCheck : StaticCheckSpec :=
  { id := "no-origin", severity := .warning,
    pattern := "call-to-tx-origin", message := "m2" }

/-- A second source unit, listed before `demoUnit` to exercise the
cross-file sort. -/
def demoUnit2 : SourceUnit :=
  { path := "Auction.sol", sourceCode := "contract Auction (source text)" }

/-- First-registered demo rule; emits two findings per file, not in
line order. -/
def demoRuleA : Rule :=
  { id := "rule-a"
    description := "first registered demo rule"
    severity := .warning
    run := fun ctx =>
      [ { ruleId := "rule-a", severity := .warning, file := ctx.filePath,
          line := 10, column := 2, message := "a1" },
        { ruleId := "rule-a", severity := .warning, file := ctx.filePath,
          line := 3, column := 1, message := "a2" } ] }

/-- Second-registered demo rule; emits one finding per file at the
same location as `demoRuleA`'s first finding, to exercise the
registration-order tie-break. -/
def demoRuleB : Rule :=
  { id := "rule-b"
    description := "second registered demo rule"
    severity := .error
    run := fun ctx =>
      [ { ruleId := "rule-b", severity := .error, file := ctx.filePath,
          line := 10, column := 2, message := "b1" } ] }

/-- C9: the SARIF `results` array contains exactly one result per
issue, in input order; its `level` is `"error"` exactly when the
issue's severity is `error` and `"warning"` for both `warning` and
`info` severities (never a `"note"` or `"info"` level), and its
location copies the issue's file, line and column. -/
theorem outputSARIF_results_correct (issues : List Issue) :
    List.Forall₂
      (fun i r =>
        (r.level = "error" ↔ i.severity = .error)
          ∧ (i.severity ≠ .error → r.level = "warning")
          ∧ (r.level = "error" ∨ r.level = "warning")
          ∧ r.uri = i.file ∧ r.startLine = i.line ∧ r.startColumn = i.column
          ∧ r.ruleId = i.ruleId ∧ r.messageText = i.message)
      issues (outputSARIFResults issues) := by
  induction issues with
  | nil => exact .nil
  | cons i t ih =>
    refine .cons ?_ ih
    by_cases h : i.severity = .error <;>
      simp [issueToSarifResult, h]

/-! ## Reporter summary (C8) -/

theorem severityCount_cons (i : Issue) (t : ReporterState) (sev : Severity) :
    severityCount (i :: t) sev
      = (if i.severity = sev then 1 else 0) + severityCount t sev := by
  by_cases h : i.severity = sev <;>
    simp [severityCount, List.filter_cons, h, Nat.add_comm]

theorem getSummary_foldl (s : ReporterState) (acc : ReportSummary) :
    s.foldl
      (fun acc i =>
        match i.severity with
        | .error => { acc with errorCount := acc.errorCount + 1 }
        | .warning => { acc with warningCount := acc.warningCount + 1 }
        | .info => { acc with infoCount := acc.infoCount + 1 })
      acc
    = { totalIssues := acc.totalIssues
        errorCount := acc.errorCount + severityCount s .error
        warningCount := acc.warningCount + severityCount s .warning
        infoCount := acc.infoCount + severityCount s .info } := by
  induction s generalizing acc with
  | nil => simp [severityCount]
  | cons i t ih =>
    rw [List.foldl_cons, ih]
    rcases hsev : i.severity <;>
      simp [severityCount_cons, hsev] <;> omega

theorem length_eq_severityCounts (s : ReporterState) :
    s.length
      = severityCount s .error + severityCount s .warning + severityCount s .info := by
  induction s with
  | nil => simp [severityCount]
  | cons i t ih =>
    rcases hsev : i.severity <;>
      simp [severityCount_cons, hsev, List.length_cons, ih] <;> omega

/-- C8: for every reporter state reachable by any sequence of
`addIssue`, `addIssues` and `clear`, `getSummary` returns counts with
`totalIssues = errorCount + warningCount + infoCount`, each counter
being the number of stored issues of the respective severity. -/
theorem getSummary_invariant (s : ReporterState) (_reach : ReachableReporter s) :
    (getSummary s).totalIssues
        = (getSummary s).errorCount + (getSummary s).warningCount
            + (getSummary s).infoCount
      ∧ (getSummary s).errorCount = severityCount s .error
      ∧ (getSummary s).warningCount = severityCount s .warning
      ∧ (getSummary s).infoCount = severityCount s .info := by
  unfold getSummary
  rw [getSummary_foldl]
  refine ⟨?_, by simp, by simp, by simp⟩
  simpa using length_eq_severityCounts s

theorem getSummary_invariant_witness :
    (getSummary demoReporterState).totalIssues
        = (getSummary demoReporterState).errorCount
            + (getSummary demoReporterState).warningCount
            + (getSummary demoReporterState).infoCount
      ∧ (getSummary demoReporterState).errorCount
          = severityCount demoReporterState .error
      ∧ (getSummary demoReporterState).warningCount
          = severityCount demoReporterState .warning
      ∧ (getSummary demoReporterState).infoCount
          = severityCount demoReporterState .info :=
  getSummary_invariant demoReporterState
    (.addIssues _ (.addIssue _ (.clear (.addIssue _ .fresh))))

/-! ## AI enhancement (C4, C10) -/

theorem forall₂_map_self {α β : Type _} {P : α → β → Prop} (f : α → β)
    (h : ∀ a, P a (f a)) : ∀ l : List α, List.Forall₂ P l (l.map f)
  | [] => .nil
  | a :: t => .cons (h a) (forall₂_map_self f h t)

/-- C4 (counterexample): `AIEnhancedRule.apply` does mutate a finding
after creation — on a context where the base rule emits one finding,
the stored record is not the record as created (its
`_needsAIEnhancement` flag has been flipped in place). -/
theorem findings_mutated_counterexample : ¬ findingsNeverMutatedAfterCreation := by
  intro h
  exact absurd (h demoBaseRule demoContext) (by decide)

/-- C4 (amended): after the base rule creates its findings,
`AIEnhancedRule.apply` changes stored findings only by setting the
`_needsAIEnhancement` flag and attaching the context snapshot on those
whose `ruleId` matches the base rule; every other field (rule id,
severity, file, line, column, message, enrichment payload) is left
exactly as created, and no finding is added, dropped or reordered by
the marking step. -/
theorem aiApply_frame (base : Rule) (ctx : AnalysisContext) :
    List.Forall₂
      (fun orig now =>
        now.ruleId = orig.ruleId ∧ now.severity = orig.severity
          ∧ now.file = orig.file ∧ now.line = orig.line ∧ now.column = orig.column
          ∧ now.message = orig.message ∧ now.aiEnhancement = orig.aiEnhancement
          ∧ (now = orig
             ∨ (orig.ruleId = base.id
                ∧ now = { orig with
                           needsAIEnhancement := true
                           aiContext := some ⟨ctx.sourceCode, ctx.filePath⟩ })))
      (ctx.issues ++ base.run ctx)
      (AIEnhancedRule.apply base true ctx).issues := by
  have hrw : (AIEnhancedRule.apply base true ctx).issues
      = (ctx.issues ++ base.run ctx).map (fun iss =>
          if iss.ruleId == base.id then
            { iss with
               needsAIEnhancement := true
               aiContext := some ⟨ctx.sourceCode, ctx.filePath⟩ }
          else iss) := by
    simp [AIEnhancedRule.apply, Rule.applyTo]
  rw [hrw]
  refine forall₂_map_self _ ?_ _
  intro a
  by_cases h : (a.ruleId == base.id) = true
  · rw [if_pos h]
    exact ⟨rfl, rfl, rfl, rfl, rfl, rfl, rfl, .inr ⟨eq_of_beq h, rfl⟩⟩
  · rw [if_neg h]
    exact ⟨rfl, rfl, rfl, rfl, rfl, rfl, rfl, .inl rfl⟩

/-- C10: `enhanceIssues` returns one output per input issue, in input
order; each output agrees with its input on rule id, severity,
location and the bookkeeping fields, and is either the unchanged input
or the input with an augmented message and an attached `aiEnhancement`
payload; when no context is found or the LLM call fails, the issue is
returned unchanged. -/
theorem enhanceIssues_frame (llm : LLMOracle) (contexts : Issue → Option EnhanceContext)
    (issues : List Issue) :
    List.Forall₂
      (fun a b =>
        b.ruleId = a.ruleId ∧ b.severity = a.severity ∧ b.file = a.file
          ∧ b.line = a.line ∧ b.column = a.column
          ∧ b.needsAIEnhancement = a.needsAIEnhancement ∧ b.aiContext = a.aiContext
          ∧ (b = a ∨ ∃ resp : LLMAnalysisResponse,
              b = { a with
                     message := formatEnhancedMessage a.message resp
                     aiEnhancement := some
                       { explanation := resp.explanation
                         suggestedFix := resp.suggestedFix
                         riskScore := resp.riskScore
                         confidence := resp.confidence } })
          ∧ (a.needsAIEnhancement = false → b = a)
          ∧ (∀ c, AIEnhancedRule.resolveContext contexts a = some c →
               llm a c = none → b = a))
      issues (AIEnhancedRule.enhanceIssues llm contexts issues) := by
  have hAIsome : ∀ (a : Issue) (c : EnhanceContext) (resp : LLMAnalysisResponse),
      llm a c = some resp →
      enhanceIssueWithAI llm a c
        = { a with
             message := formatEnhancedMessage a.message resp
             aiEnhancement := some
               { explanation := resp.explanation
                 suggestedFix := resp.suggestedFix
                 riskScore := resp.riskScore
                 confidence := resp.confidence } } := by
    intro a c resp h
    unfold enhanceIssueWithAI
    rw [h]
  have hAInone : ∀ (a : Issue) (c : EnhanceContext),
      llm a c = none → enhanceIssueWithAI llm a c = a := by
    intro a c h
    unfold enhanceIssueWithAI
    rw [h]
  have hOnePos : ∀ (a : Issue) (c : EnhanceContext),
      a.needsAIEnhancement = true →
      AIEnhancedRule.resolveContext contexts a = some c →
      AIEnhancedRule.enhanceOne llm contexts a = enhanceIssueWithAI llm a c := by
    intro a c hf hc
    unfold AIEnhancedRule.enhanceOne
    rw [if_pos hf, hc]
  have hOneNoCtx : ∀ a : Issue,
      a.needsAIEnhancement = true →
      AIEnhancedRule.resolveContext contexts a = none →
      AIEnhancedRule.enhanceOne llm contexts a = a := by
    intro a hf hc
    unfold AIEnhancedRule.enhanceOne
    rw [if_pos hf, hc]
  have hOneOff : ∀ a : Issue,
      a.needsAIEnhancement = false →
      AIEnhancedRule.enhanceOne llm contexts a = a := by
    intro a hf
    unfold AIEnhancedRule.enhanceOne
    rw [if_neg (by rw [hf]; exact Bool.false_ne_true)]
  unfold AIEnhancedRule.enhanceIssues
  refine forall₂_map_self _ ?_ _
  intro a
  by_cases hf : a.needsAIEnhancement = true
  · cases hctx : AIEnhancedRule.resolveContext contexts a with
    | none =>
        rw [hOneNoCtx a hf hctx]
        refine ⟨rfl, rfl, rfl, rfl, rfl, rfl, rfl, .inl rfl, fun _ => rfl, ?_⟩
        intro c hc
        cases hc
    | some c =>
        cases hllm : llm a c with
        | none =>
            rw [hOnePos a c hf hctx, hAInone a c hllm]
            exact ⟨rfl, rfl, rfl, rfl, rfl, rfl, rfl, .inl rfl, fun _ => rfl, fun _ _ _ => rfl⟩
        | some resp =>
            rw [hOnePos a c hf hctx, hAIsome a c resp hllm]
            refine ⟨rfl, rfl, rfl, rfl, rfl, rfl, rfl, .inr ⟨resp, rfl⟩, ?_, ?_⟩
            · intro hcontra
              rw [hf] at hcontra
              cases hcontra
            · intro c' hc' hnone
              cases hc'
              rw [hllm] at hnone
              cases hnone
  · have hf' : a.needsAIEnhancement = false := by
      cases hval : a.needsAIEnhancement
      · rfl
      · exact absurd hval hf
    rw [hOneOff a hf']
    refine ⟨rfl, rfl, rfl, rfl, rfl, rfl, rfl, .inl rfl, fun _ => rfl, fun _ _ _ => rfl⟩

/-! ## The analyze task error protocol (C5) -/

/-- C5 (counterexample): a `ParseError` is not the only error class
that halts processing — a run whose sources parse but whose rule
determination throws (here, a missing playbook file) is also aborted
by `analyzeTask` instead of completing with a finding list. -/
theorem parseError_not_only_fatal : ¬ parseErrorOnlyFatal := by
  intro h
  rcases h demoAbortInput with ⟨issues, hc⟩ | ⟨msg, hp⟩
  · simp [analyzeRun, demoAbortInput] at hc
  · simp [demoAbortInput] at hp

/-- C5 (amended): a `ParseError` aborts the run with a single fatal
parse diagnostic and no finding list; any other exception reaching
the task boundary — a rule-set determination failure or a
non-`ParseError` failure while reading sources — also aborts the run;
when rule determination succeeds and every source parses, the run
completes with a (possibly empty) finding list, and every run either
completes or aborts (no partial-success state). -/
theorem analyzeRun_error_protocol :
    (∀ (rules : List Rule) (msg : String),
        analyzeRun ⟨.ok rules, .parseFailure msg⟩ = .aborted ("Parse error: " ++ msg))
      ∧ (∀ (rules : List Rule) (units : List SourceUnit),
          analyzeRun ⟨.ok rules, .parsed units⟩ = .completed (engineFindings rules units))
      ∧ (∀ (rules : List Rule) (msg : String),
          analyzeRun ⟨.ok rules, .readFailure msg⟩
            = .aborted ("Failed to parse source files: " ++ msg))
      ∧ (∀ (e : String) (po : ParseOutcome),
          analyzeRun ⟨.error e, po⟩ = .aborted ("Analysis failed: " ++ e))
      ∧ (∀ inp : TaskInput,
          (∃ m, analyzeRun inp = .aborted m) ∨ ∃ iss, analyzeRun inp = .completed iss) := by
  refine ⟨fun _ _ => rfl, fun _ _ => rfl, fun _ _ => rfl, fun _ _ => rfl, ?_⟩
  rintro ⟨ro, po⟩
  cases ro <;> cases po <;> simp [analyzeRun]

/-! ## Failure isolation (C6) -/

theorem analyzeFileIsolated_faulty (rules1 rules2 : List FallibleRule)
    (faulty : FallibleRule) (u : SourceUnit)
    (h : ∃ e, faulty.runE (mkContext u) = .error e) :
    (analyzeFileIsolated (rules1 ++ faulty :: rules2) u).1
      = (analyzeFileIsolated (rules1 ++ rules2) u).1 := by
  rcases h with ⟨e, he⟩
  simp [analyzeFileIsolated, List.flatMap_append, List.flatMap_cons, runRuleIsolated, he]

/-- C6: an always-throwing rule injected anywhere into the active rule
set is caught per rule per file — the findings of every other rule on
every file are exactly those of the run without the faulty rule, and
each file's failure log names the faulty rule's id and the file. -/
theorem ruleFailure_isolation (rules1 rules2 : List FallibleRule)
    (faulty : FallibleRule) (units : List SourceUnit)
    (hfail : ∀ u ∈ units, ∃ e, faulty.runE (mkContext u) = .error e) :
    (analyzeMultipleIsolated (rules1 ++ faulty :: rules2) units).1
        = (analyzeMultipleIsolated (rules1 ++ rules2) units).1
      ∧ ∀ u ∈ units, ∃ e,
          ({ ruleId := faulty.id, file := u.path, message := e } : RuleFailure)
            ∈ (analyzeMultipleIsolated (rules1 ++ faulty :: rules2) units).2 := by
  constructor
  · have hproj : ∀ (rules : List FallibleRule) (us : List SourceUnit),
        (analyzeMultipleIsolated rules us).1
          = us.flatMap fun u => (analyzeFileIsolated rules u).1 :=
      fun _ _ => rfl
    rw [hproj, hproj]
    induction units with
    | nil => rfl
    | cons u rest ih =>
        rw [List.flatMap_cons, List.flatMap_cons,
          analyzeFileIsolated_faulty rules1 rules2 faulty u (hfail u (by simp)),
          ih (fun v hv => hfail v (by simp [hv]))]
  · intro u hu
    rcases hfail u hu with ⟨e, he⟩
    refine ⟨e, ?_⟩
    unfold analyzeMultipleIsolated
    rw [List.mem_flatMap]
    refine ⟨u, hu, ?_⟩
    unfold analyzeFileIsolated
    rw [List.mem_flatMap]
    exact ⟨faulty, by simp, by simp [runRuleIsolated, he]⟩

theorem ruleFailure_isolation_witness :
    (∀ u ∈ [demoUnit], ∃ e, demoFaultyRule.runE (mkContext u) = .error e)
      ∧ ((analyzeMultipleIsolated ([demoOkRule] ++ demoFaultyRule :: []) [demoUnit]).1
            = (analyzeMultipleIsolated ([demoOkRule] ++ []) [demoUnit]).1
          ∧ ∀ u ∈ [demoUnit], ∃ e,
              ({ ruleId := demoFaultyRule.id, file := u.path, message := e } : RuleFailure)
                ∈ (analyzeMultipleIsolated ([demoOkRule] ++ demoFaultyRule :: []) [demoUnit]).2) := by
  have h : ∀ u ∈ [demoUnit], ∃ e, demoFaultyRule.runE (mkContext u) = .error e := by
    intro u _
    exact ⟨"rule crashed", rfl⟩
  exact ⟨h, ruleFailure_isolation [demoOkRule] [] demoFaultyRule [demoUnit] h⟩

/-! ## Playbook partial validity (C3) -/

theorem toOption_ok {ε α : Type _} (a : α) :
    (Except.ok a : Except ε α).toOption = some a := rfl

theorem toOption_error {ε α : Type _} (e : ε) :
    (Except.error e : Except ε α).toOption = none := rfl

theorem validateCheck_missing_severity (c : RawCheck) (h : c.severity = none) :
    ∃ e, validateCheck c = .error e := by
  unfold validateCheck
  cases hid : c.id with
  | none => exact ⟨_, rfl⟩
  | some i => rw [h]; exact ⟨_, rfl⟩

theorem parsePlaybook_allValid (l : List RawCheck)
    (h : ∀ c ∈ l, ∃ s, validateCheck c = .ok s) :
    (l.filterMap fun c => (validateCheck c).toOption).length = l.length
      ∧ (l.flatMap fun c =>
          match validateCheck c with
          | .ok _ => []
          | .error e => [e]) = [] := by
  induction l with
  | nil => exact ⟨rfl, rfl⟩
  | cons c t ih =>
      rcases h c (by simp) with ⟨s, hs⟩
      rcases ih (fun c' hc' => h c' (by simp [hc'])) with ⟨ih1, ih2⟩
      constructor
      · simp [List.filterMap_cons, hs, toOption_ok, ih1]
      · simp [List.flatMap_cons, hs, ih2]

theorem compilePlaybook_allRecognized (cs : List StaticCheckSpec)
    (h : ∀ s ∈ cs, (recognizePredicate s.pattern).isSome) :
    (compilePlaybook ⟨cs⟩).1.length = cs.length ∧ (compilePlaybook ⟨cs⟩).2 = [] := by
  induction cs with
  | nil => exact ⟨rfl, rfl⟩
  | cons s t ih =>
      have hs := h s (by simp)
      rcases Option.isSome_iff_exists.mp hs with ⟨tag, htag⟩
      rcases ih (fun s' hs' => h s' (by simp [hs'])) with ⟨ih1, ih2⟩
      have hcs : compileCheck s
          = .ok { id := s.id, severity := s.severity, message := s.message, tag := tag } := by
        unfold compileCheck
        rw [htag]
      simp only [compilePlaybook] at ih1 ih2 ⊢
      constructor
      · simp [List.filterMap_cons, hcs, toOption_ok, ih1]
      · simp [List.flatMap_cons, hcs, ih2]

theorem mem_parsePlaybook_checks (doc : List RawCheck) (s : StaticCheckSpec)
    (h : s ∈ (parsePlaybook doc).1.checks) :
    ∃ c ∈ doc, validateCheck c = .ok s := by
  unfold parsePlaybook at h
  simp only [List.mem_filterMap] at h
  rcases h with ⟨c, hc, hv⟩
  refine ⟨c, hc, ?_⟩
  cases hval : validateCheck c <;> rw [hval] at hv <;> simp [Except.toOption] at hv
  rw [hv]

/-- C3: a playbook document holding N well-formed check entries and
one entry missing its required severity field parses and compiles to
exactly N rules plus exactly one validation error and no compile
error — validation is exhaustive over all entries, never fail-fast,
and never yields zero rules for N > 0. -/
theorem playbook_partial_validity (l1 l2 : List RawCheck) (bad : RawCheck)
    (hgood : ∀ c ∈ l1 ++ l2,
      ∃ s, validateCheck c = .ok s ∧ (recognizePredicate s.pattern).isSome)
    (hbad : bad.severity = none) :
    (compilePlaybook (parsePlaybook (l1 ++ bad :: l2)).1).1.length = (l1 ++ l2).length
      ∧ (parsePlaybook (l1 ++ bad :: l2)).2.length = 1
      ∧ (compilePlaybook (parsePlaybook (l1 ++ bad :: l2)).1).2 = [] := by
  rcases validateCheck_missing_severity bad hbad with ⟨e, he⟩
  have hgood1 : ∀ c ∈ l1, ∃ s, validateCheck c = .ok s :=
    fun c hc => ⟨(hgood c (by simp [hc])).choose, (hgood c (by simp [hc])).choose_spec.1⟩
  have hgood2 : ∀ c ∈ l2, ∃ s, validateCheck c = .ok s :=
    fun c hc => ⟨(hgood c (by simp [hc])).choose, (hgood c (by simp [hc])).choose_spec.1⟩
  have hchecks :
      (parsePlaybook (l1 ++ bad :: l2)).1.checks.length = (l1 ++ l2).length := by
    unfold parsePlaybook
    simp only [List.filterMap_append, List.filterMap_cons, he, toOption_error]
    rw [List.length_append, List.length_append,
      (parsePlaybook_allValid l1 hgood1).1, (parsePlaybook_allValid l2 hgood2).1]
  have hrecog : ∀ s ∈ (parsePlaybook (l1 ++ bad :: l2)).1.checks,
      (recognizePredicate s.pattern).isSome := by
    intro s hs
    rcases mem_parsePlaybook_checks _ s hs with ⟨c, hc, hv⟩
    rcases List.mem_append.mp hc with hc1 | hc2
    · rcases hgood c (by simp [hc1]) with ⟨s', hs', hr⟩
      rw [hv] at hs'
      cases hs'
      exact hr
    · rcases List.mem_cons.mp hc2 with hb | hc2
      · rw [hb, he] at hv
        cases hv
      · rcases hgood c (by simp [hc2]) with ⟨s', hs', hr⟩
        rw [hv] at hs'
        cases hs'
        exact hr
  have hcomp := compilePlaybook_allRecognized (parsePlaybook (l1 ++ bad :: l2)).1.checks hrecog
  refine ⟨?_, ?_, hcomp.2⟩
  · rw [hcomp.1, hchecks]
  · unfold parsePlaybook
    simp only [List.flatMap_append, List.flatMap_cons, he,
      (parsePlaybook_allValid l1 hgood1).2, (parsePlaybook_allValid l2 hgood2).2]
    rfl

theorem playbook_partial_validity_witness :
    (∀ c ∈ [demoGoodCheck1] ++ [demoGoodCheck2],
        ∃ s, validateCheck c = .ok s ∧ (recognizePredicate s.pattern).isSome)
      ∧ demoBadCheck.severity = none
      ∧ ((compilePlaybook
            (parsePlaybook ([demoGoodCheck1] ++ demoBadCheck :: [demoGoodCheck2])).1).1.length
            = ([demoGoodCheck1] ++ [demoGoodCheck2]).length
          ∧ (parsePlaybook ([demoGoodCheck1] ++ demoBadCheck :: [demoGoodCheck2])).2.length = 1
          ∧ (compilePlaybook
              (parsePlaybook ([demoGoodCheck1] ++ demoBadCheck :: [demoGoodCheck2])).1).2 = []) := by
  have hgood : ∀ c ∈ [demoGoodCheck1] ++ [demoGoodCheck2],
      ∃ s, validateCheck c = .ok s ∧ (recognizePredicate s.pattern).isSome := by
    intro c hc
    rcases List.mem_append.mp hc with h1 | h2
    · rw [List.mem_singleton.mp h1]
      exact ⟨_, rfl, rfl⟩
    · rw [List.mem_singleton.mp h2]
      exact ⟨_, rfl, rfl⟩
  exact ⟨hgood, rfl,
    playbook_partial_validity [demoGoodCheck1] [demoGoodCheck2] demoBadCheck hgood rfl⟩

/-! ## Closed predicate vocabulary (C7) -/

/-- C7: a check whose predicate name is outside the compiler's fixed
vocabulary produces a compile-time validation error for that one check
and contributes no rule (the other checks compile exactly as without
it), and every rule the compiler emits carries a tag of the closed
`PredTag` vocabulary determined by its recognized predicate name — the
compiler never evaluates expression logic supplied by the playbook. -/
theorem compiler_closed_vocabulary :
    (∀ (l1 l2 : List StaticCheckSpec) (c : StaticCheckSpec),
        recognizePredicate c.pattern = none →
          (compilePlaybook ⟨l1 ++ c :: l2⟩).1 = (compilePlaybook ⟨l1 ++ l2⟩).1
            ∧ (compilePlaybook ⟨l1 ++ c :: l2⟩).2.length
                = (compilePlaybook ⟨l1 ++ l2⟩).2.length + 1)
      ∧ (∀ (c : StaticCheckSpec) (r : CompiledRule),
          compileCheck c = .ok r → recognizePredicate c.pattern = some r.tag) := by
  constructor
  · intro l1 l2 c h
    constructor
    · simp [compilePlaybook, List.filterMap_append, List.filterMap_cons,
        compileCheck, h, Except.toOption]
    · simp [compilePlaybook, List.flatMap_append, List.flatMap_cons,
        compileCheck, h]
      omega
  · intro c r h
    unfold compileCheck at h
    cases hr : recognizePredicate c.pattern with
    | none => rw [hr] at h; cases h
    | some t =>
        rw [hr] at h
        cases h
        rfl

theorem compiler_closed_vocabulary_witness :
    recognizePredicate demoUnknownCheck.pattern = none
      ∧ ((compilePlaybook ⟨[] ++ demoUnknownCheck :: [demoKnownCheck]⟩).1
            = (compilePlaybook ⟨[] ++ [demoKnownCheck]⟩).1
          ∧ (compilePlaybook ⟨[] ++ demoUnknownCheck :: [demoKnownCheck]⟩).2.length
              = (compilePlaybook ⟨[] ++ [demoKnownCheck]⟩).2.length + 1) :=
  ⟨rfl, compiler_closed_vocabulary.1 [] [demoKnownCheck] demoUnknownCheck rfl⟩

/-! ## The reentrancy rule and the CEI property (C1) -/

theorem reentrancyScan_callFree (file : String) (L : List Stmt) (h : callFree L) :
    reentrancyScan file L = [] := by
  induction L with
  | nil => rfl
  | cons s rest ih =>
      have hs := h s (by simp)
      have hrest : callFree rest := fun s' hs' => h s' (by simp [hs'])
      cases s with
      | externalCall l c => simp [isExternalCall] at hs
      | balanceWrite l c => simpa [reentrancyScan] using ih hrest
      | guardToggle l c => simpa [reentrancyScan] using ih hrest
      | other l c => simpa [reentrancyScan] using ih hrest

theorem reentrancyScan_append_callFree (file : String) (A B : List Stmt)
    (h : callFree A) : reentrancyScan file (A ++ B) = reentrancyScan file B := by
  induction A with
  | nil => rfl
  | cons s rest ih =>
      have hs := h s (by simp)
      have hrest : callFree rest := fun s' hs' => h s' (by simp [hs'])
      cases s with
      | externalCall l c => simp [isExternalCall] at hs
      | balanceWrite l c => simpa [reentrancyScan] using ih hrest
      | guardToggle l c => simpa [reentrancyScan] using ih hrest
      | other l c => simpa [reentrancyScan] using ih hrest

theorem unguardedWriteAfter_reaches (mid post : List Stmt) (lw cw : Nat)
    (h : guardFree mid) :
    unguardedWriteAfter (mid ++ .balanceWrite lw cw :: post) = true := by
  induction mid with
  | nil => simp [unguardedWriteAfter, isBalanceWrite]
  | cons s rest ih =>
      have hs := h s (by simp)
      have hrest : guardFree rest := fun s' hs' => h s' (by simp [hs'])
      simp [unguardedWriteAfter, hs, ih hrest]

theorem unguardedWriteAfter_writeFree (L : List Stmt) (h : writeFree L) :
    unguardedWriteAfter L = false := by
  induction L with
  | nil => rfl
  | cons s rest ih =>
      have hs := h s (by simp)
      have hrest : writeFree rest := fun s' hs' => h s' (by simp [hs'])
      simp [unguardedWriteAfter, hs, ih hrest]

/-- C1: for a function body holding exactly one external call followed
— with no reentrancy-guard toggle in between — by a write to a
balance-like mapping, the reentrancy rule yields exactly one
error-severity finding located at the call; for the body with the
write moved before the call (and no write left after the call), it
yields no finding. -/
theorem reentrancy_cei (file : String) (pre mid post : List Stmt) (l c lw cw : Nat)
    (hpre : callFree pre) (hmid : callFree mid) (hpost : callFree post)
    (hmidGuard : guardFree mid) (hpostWrite : writeFree post) :
    reentrancyScan file (pre ++ .externalCall l c :: (mid ++ .balanceWrite lw cw :: post))
        = [reentrancyFinding file l c]
      ∧ reentrancyScan file (pre ++ .balanceWrite lw cw :: (mid ++ .externalCall l c :: post))
        = [] := by
  constructor
  · rw [reentrancyScan_append_callFree file pre _ hpre]
    have hrest : callFree (mid ++ Stmt.balanceWrite lw cw :: post) := by
      intro s hs
      rcases List.mem_append.mp hs with h1 | h2
      · exact hmid s h1
      · rcases List.mem_cons.mp h2 with hb | h3
        · rw [hb]; rfl
        · exact hpost s h3
    simp [reentrancyScan, unguardedWriteAfter_reaches mid post lw cw hmidGuard,
      reentrancyScan_callFree file _ hrest]
  · rw [reentrancyScan_append_callFree file pre _ hpre]
    have hmid' : callFree (Stmt.balanceWrite lw cw :: mid) := by
      intro s hs
      rcases List.mem_cons.mp hs with hb | h1
      · rw [hb]; rfl
      · exact hmid s h1
    rw [show (Stmt.balanceWrite lw cw :: (mid ++ Stmt.externalCall l c :: post))
          = (Stmt.balanceWrite lw cw :: mid) ++ Stmt.externalCall l c :: post by simp,
      reentrancyScan_append_callFree file _ _ hmid']
    simp [reentrancyScan, unguardedWriteAfter_writeFree post hpostWrite,
      reentrancyScan_callFree file post hpost]

theorem reentrancy_cei_witness :
    (callFree ([] : List Stmt) ∧ guardFree ([] : List Stmt)
        ∧ writeFree ([] : List Stmt))
      ∧ (reentrancyScan "Vault.sol"
            ([] ++ .externalCall 2 5 :: ([] ++ .balanceWrite 3 5 :: []))
          = [reentrancyFinding "Vault.sol" 2 5]
        ∧ reentrancyScan "Vault.sol"
            ([] ++ .balanceWrite 3 5 :: ([] ++ .externalCall 2 5 :: []))
          = []) := by
  have hnil : callFree ([] : List Stmt) := by
    intro s hs
    cases hs
  have hnilG : guardFree ([] : List Stmt) := by
    intro s hs
    cases hs
  have hnilW : writeFree ([] : List Stmt) := by
    intro s hs
    cases hs
  exact ⟨⟨hnil, hnilG, hnilW⟩,
    reentrancy_cei "Vault.sol" [] [] [] 2 5 3 5 hnil hnil hnil hnilG hnilW⟩

/-! ## Deterministic ordering of the aggregated findings (C2) -/

theorem issueLE_iff (a b : Issue) :
    issueLE a b = true
      ↔ (a.file < b.file
          ∨ (a.file = b.file
              ∧ (a.line < b.line ∨ (a.line = b.line ∧ a.column ≤ b.column)))) := by
  unfold issueLE
  by_cases hf : a.file = b.file
  · by_cases hl : a.line = b.line
    · simp [hf, hl]
    · simp [hf, hl]
  · simp [hf]

theorem issueLE_trans :
    ∀ a b c : Issue, issueLE a b = true → issueLE b c = true → issueLE a c = true := by
  intro a b c hab hbc
  rw [issueLE_iff] at hab hbc ⊢
  rcases hab with h1 | ⟨hf1, h1⟩
  · rcases hbc with h2 | ⟨hf2, h2⟩
    · exact .inl (lt_trans h1 h2)
    · exact .inl (by rw [← hf2]; exact h1)
  · rcases hbc with h2 | ⟨hf2, h2⟩
    · exact .inl (by rw [hf1]; exact h2)
    · refine .inr ⟨hf1.trans hf2, ?_⟩
      rcases h1 with hl1 | ⟨hl1, hc1⟩
      · rcases h2 with hl2 | ⟨hl2, hc2⟩
        · exact .inl (lt_trans hl1 hl2)
        · exact .inl (by rw [← hl2]; exact hl1)
      · rcases h2 with hl2 | ⟨hl2, hc2⟩
        · exact .inl (by rw [hl1]; exact hl2)
        · exact .inr ⟨hl1.trans hl2, le_trans hc1 hc2⟩

theorem issueLE_total : ∀ a b : Issue, (issueLE a b || issueLE b a) = true := by
  intro a b
  rw [Bool.or_eq_true, issueLE_iff, issueLE_iff]
  rcases lt_trichotomy a.file b.file with h | h | h
  · exact .inl (.inl h)
  · rcases lt_trichotomy a.line b.line with h' | h' | h'
    · exact .inl (.inr ⟨h, .inl h'⟩)
    · rcases Nat.le_total a.column b.column with hc | hc
      · exact .inl (.inr ⟨h, .inr ⟨h', hc⟩⟩)
      · exact .inr (.inr ⟨h.symm, .inr ⟨h'.symm, hc⟩⟩)
    · exact .inr (.inr ⟨h.symm, .inl h'⟩)
  · exact .inr (.inl h)

theorem sameKey_symm {a b : Issue} (h : sameKey a b) : sameKey b a :=
  ⟨h.1.symm, h.2.1.symm, h.2.2.symm⟩

theorem sameKey_issueLE {a b : Issue} (h : sameKey a b) : issueLE a b = true := by
  rw [issueLE_iff]
  exact .inr ⟨h.1, .inr ⟨h.2.1, le_of_eq h.2.2⟩⟩

/-- Stability of `mergeSort`: a pairwise relation that holds on the
input, is reflexive, and holds outright for every non-tied pair, still
holds pairwise on the sorted output — tied elements keep their input
order. -/
theorem pairwise_mergeSort_stable {α : Type _} (le : α → α → Bool)
    (htrans : ∀ a b c : α, le a b = true → le b c = true → le a c = true)
    (htotal : ∀ a b : α, (le a b || le b a) = true)
    {R : α → α → Prop}
    (hrefl : ∀ a, R a a)
    (hnontie : ∀ a b, ¬(le a b = true ∧ le b a = true) → R a b)
    (l : List α) (h : l.Pairwise R) :
    (l.mergeSort le).Pairwise R := by
  rw [← List.mergeSort_enum, List.pairwise_map]
  have hsorted := List.sorted_mergeSort
    (List.enumLE_trans htrans) (List.enumLE_total htotal) l.enum
  refine List.Pairwise.imp_of_mem ?_ hsorted
  intro x y hx hy hxy
  rcases x with ⟨i, xv⟩
  rcases y with ⟨j, yv⟩
  rw [List.mem_mergeSort] at hx hy
  obtain ⟨hilen, hxval⟩ := List.mem_enum hx
  obtain ⟨hjlen, hyval⟩ := List.mem_enum hy
  by_cases h1 : le xv yv = true
  · by_cases h2 : le yv xv = true
    · have hidx : i ≤ j := by
        simpa [List.enumLE, h1, h2] using hxy
      rcases Nat.lt_or_ge i j with hlt | hge
      · have hR := (List.pairwise_iff_getElem.mp h) i j hilen hjlen hlt
        rw [hxval, hyval]
        exact hR
      · have hij : i = j := Nat.le_antisymm hidx hge
        subst hij
        have heq : xv = yv := hxval.trans hyval.symm
        rw [heq]
        exact hrefl yv
    · exact hnontie _ _ fun hcon => h2 hcon.2
  · exfalso
    simp [List.enumLE, h1] at hxy

theorem mem_analyzeFile {rules : List Rule} {u : SourceUnit} {iss : Issue}
    (h : iss ∈ analyzeFile rules u) : ∃ r ∈ rules, iss ∈ ruleFindings r u := by
  simpa [analyzeFile, List.mem_flatMap] using h

theorem mem_aggregateFindings {rules : List Rule} {units : List SourceUnit} {iss : Issue}
    (h : iss ∈ aggregateFindings rules units) : ∃ u ∈ units, iss ∈ analyzeFile rules u := by
  simpa [aggregateFindings, List.mem_flatMap] using h

theorem ruleIdx_cons_self (r : Rule) (rest : List Rule) :
    ruleIdx (r :: rest) r.id = 0 := by
  simp [ruleIdx, List.findIdx_cons]

theorem ruleIdx_cons_ne (r : Rule) (rest : List Rule) (rid : String) (h : r.id ≠ rid) :
    ruleIdx (r :: rest) rid = ruleIdx rest rid + 1 := by
  have hb : (r.id == rid) = false := by
    simpa using h
  simp [ruleIdx, List.findIdx_cons, hb]

/-- On one file, findings are listed in rule-registration order. -/
theorem pairwise_ruleIdx_analyzeFile (rules : List Rule) (u : SourceUnit)
    (hids : (rules.map Rule.id).Nodup)
    (hrid : ∀ r ∈ rules, ∀ iss ∈ ruleFindings r u, iss.ruleId = r.id) :
    (analyzeFile rules u).Pairwise
      (fun a b => ruleIdx rules a.ruleId ≤ ruleIdx rules b.ruleId) := by
  induction rules with
  | nil => simp [analyzeFile]
  | cons r rest ih =>
      have hidr : r.id ∉ rest.map Rule.id := (List.nodup_cons.mp hids).1
      have hrest : (rest.map Rule.id).Nodup := (List.nodup_cons.mp hids).2
      have hthis : ∀ iss ∈ ruleFindings r u, iss.ruleId = r.id := hrid r (by simp)
      have hmem : ∀ iss ∈ analyzeFile rest u, ∃ r' ∈ rest, iss.ruleId = r'.id := by
        intro iss hi
        rcases mem_analyzeFile hi with ⟨r', hr', hi'⟩
        exact ⟨r', hr', hrid r' (by simp [hr']) iss hi'⟩
      have hshift : ∀ iss ∈ analyzeFile rest u,
          ruleIdx (r :: rest) iss.ruleId = ruleIdx rest iss.ruleId + 1 := by
        intro iss hi
        rcases hmem iss hi with ⟨r', hr', hrid'⟩
        have hne : r.id ≠ iss.ruleId := by
          rw [hrid']
          intro hcontra
          exact hidr (hcontra ▸ List.mem_map_of_mem Rule.id hr')
        exact ruleIdx_cons_ne r rest _ hne
      rw [show analyzeFile (r :: rest) u = ruleFindings r u ++ analyzeFile rest u from by
        simp [analyzeFile, List.flatMap_cons]]
      rw [List.pairwise_append]
      refine ⟨?_, ?_, ?_⟩
      · refine List.pairwise_of_forall_mem_list ?_
        intro a ha b hb
        rw [hthis a ha, hthis b hb, ruleIdx_cons_self]
      · have hih := ih hrest fun r' hr' => hrid r' (by simp [hr'])
        refine List.Pairwise.imp_of_mem ?_ hih
        intro a b ha hb hab
        rw [hshift a ha, hshift b hb]
        omega
      · intro a ha b hb
        rw [hthis a ha, ruleIdx_cons_self]
        exact Nat.zero_le _

/-- In the aggregated (pre-sort) list, any two findings with the same
(file, line, column) key are already in rule-registration order. -/
theorem pairwise_key_aggregate (rules : List Rule) (units : List SourceUnit)
    (hfile : ∀ u ∈ units, ∀ r ∈ rules, ∀ iss ∈ ruleFindings r u, iss.file = u.path)
    (hrid : ∀ u ∈ units, ∀ r ∈ rules, ∀ iss ∈ ruleFindings r u, iss.ruleId = r.id)
    (hpaths : (units.map SourceUnit.path).Nodup)
    (hids : (rules.map Rule.id).Nodup) :
    (aggregateFindings rules units).Pairwise
      (fun a b => sameKey a b → ruleIdx rules a.ruleId ≤ ruleIdx rules b.ruleId) := by
  induction units with
  | nil => simp [aggregateFindings]
  | cons u rest ih =>
      have hpathu : u.path ∉ rest.map SourceUnit.path := (List.nodup_cons.mp hpaths).1
      have hprest : (rest.map SourceUnit.path).Nodup := (List.nodup_cons.mp hpaths).2
      have hfileu : ∀ iss ∈ analyzeFile rules u, iss.file = u.path := by
        intro iss hi
        rcases mem_analyzeFile hi with ⟨r, hr, hi'⟩
        exact hfile u (by simp) r hr iss hi'
      have hfilemem : ∀ iss ∈ aggregateFindings rules rest, ∃ v ∈ rest, iss.file = v.path := by
        intro iss hi
        rcases mem_aggregateFindings hi with ⟨v, hv, hi'⟩
        rcases mem_analyzeFile hi' with ⟨r, hr, hi''⟩
        exact ⟨v, hv, hfile v (by simp [hv]) r hr iss hi''⟩
      rw [show aggregateFindings rules (u :: rest)
            = analyzeFile rules u ++ aggregateFindings rules rest from by
        simp [aggregateFindings, List.flatMap_cons]]
      rw [List.pairwise_append]
      refine ⟨?_, ?_, ?_⟩
      · refine (pairwise_ruleIdx_analyzeFile rules u hids
          (fun r hr => hrid u (by simp) r hr)).imp ?_
        intro a b h _
        exact h
      · exact ih (fun v hv => hfile v (by simp [hv]))
          (fun v hv => hrid v (by simp [hv])) hprest
      · intro a ha b hb hkey
        exfalso
        rcases hfilemem b hb with ⟨v, hv, hbv⟩
        apply hpathu
        rw [show u.path = v.path from by rw [← hfileu a ha, hkey.1, hbv]]
        exact List.mem_map_of_mem SourceUnit.path hv

/-- C2: the aggregated finding collection of an analysis run is sorted
ascending by (file, line, column), and any two findings with equal
file, line and column appear with the earlier-registered rule's
finding first, for every input file set (with distinct paths, findings
located in their own file) and every active rule set (with distinct
ids, findings carrying their rule's id). -/
theorem engineFindings_ordered (rules : List Rule) (units : List SourceUnit)
    (hfile : ∀ u ∈ units, ∀ r ∈ rules, ∀ iss ∈ ruleFindings r u, iss.file = u.path)
    (hrid : ∀ u ∈ units, ∀ r ∈ rules, ∀ iss ∈ ruleFindings r u, iss.ruleId = r.id)
    (hpaths : (units.map SourceUnit.path).Nodup)
    (hids : (rules.map Rule.id).Nodup) :
    (engineFindings rules units).Pairwise (fun a b => issueLE a b = true)
      ∧ (engineFindings rules units).Pairwise
          (fun a b => sameKey a b → ruleIdx rules a.ruleId ≤ ruleIdx rules b.ruleId) := by
  unfold engineFindings sortFindings
  constructor
  · exact List.sorted_mergeSort issueLE_trans issueLE_total _
  · exact pairwise_mergeSort_stable issueLE issueLE_trans issueLE_total
      (fun a _ => le_refl _)
      (fun a b hn hk => absurd ⟨sameKey_issueLE hk, sameKey_issueLE (sameKey_symm hk)⟩ hn)
      _ (pairwise_key_aggregate rules units hfile hrid hpaths hids)

theorem engineFindings_ordered_witness :
    (∀ u ∈ [demoUnit2, demoUnit], ∀ r ∈ [demoRuleA, demoRuleB],
        ∀ iss ∈ ruleFindings r u, iss.file = u.path)
      ∧ (∀ u ∈ [demoUnit2, demoUnit], ∀ r ∈ [demoRuleA, demoRuleB],
          ∀ iss ∈ ruleFindings r u, iss.ruleId = r.id)
      ∧ ([demoUnit2, demoUnit].map SourceUnit.path).Nodup
      ∧ ([demoRuleA, demoRuleB].map Rule.id).Nodup
      ∧ ((engineFindings [demoRuleA, demoRuleB] [demoUnit2, demoUnit]).Pairwise
            (fun a b => issueLE a b = true)
          ∧ (engineFindings [demoRuleA, demoRuleB] [demoUnit2, demoUnit]).Pairwise
              (fun a b => sameKey a b →
                ruleIdx [demoRuleA, demoRuleB] a.ruleId
                  ≤ ruleIdx [demoRuleA, demoRuleB] b.ruleId)) :=
  ⟨by decide, by decide, by decide, by decide,
    engineFindings_ordered [demoRuleA, demoRuleB] [demoUnit2, demoUnit]
      (by decide) (by decide) (by decide) (by decide)⟩

end SuperAudit
